import Mathlib

/- Formal model of the datademo service (src/main.rs): bearer-token
extraction, the authorization-code exchange, the per-account transaction
fetch, the credential-keyed cache, and the 7-day category summary. -/

namespace Datademo

/-- Claims decoded from a token: `sub` and `exp` (a `usize`, epoch seconds). -/
structure Claims where
  sub : String
  exp : Nat
deriving DecidableEq

/-- Failures of `decode_token`: `Malformed` models a header/parse failure,
`InvalidClaims` a payload whose required fields are absent or ill-typed, and
`Expired` the jsonwebtoken `ExpiredSignature` raised by the default
`Validation` (which has `validate_exp = true`). -/
inductive TokenError where
  | Malformed
  | InvalidClaims
  | Expired
deriving DecidableEq

/-- Outcome of the jsonwebtoken parsing phase on a token string, before the
claim-validation step. -/
inductive ParseOutcome where
  | malformed
  | badClaims
  | parsed (c : Claims)

/-- Model of `decode_token` (main.rs:58-65). The jsonwebtoken crate is
external to the repository; its behavior is modelled from its documented
semantics: `decode_header` failure gives `Malformed`, payload
deserialization failure gives `InvalidClaims`, and `Validation::new(alg)`
enables `validate_exp` with zero leeway, so a structurally valid token whose
`exp` is before `now` is rejected (`ExpiredSignature`, here `.Expired`). -/
def decode_token (parse : String → ParseOutcome) (now : Nat) (t : String) :
    Except TokenError Claims :=
  match parse t with
  | .malformed => .error .Malformed
  | .badClaims => .error .InvalidClaims
  | .parsed c => if c.exp < now then .error .Expired else .ok c

/-- The `Credentials` struct (main.rs:67-73). -/
structure Credentials where
  access_token : String
  credentials_id : String
  expiration_date : Nat
deriving DecidableEq

/-- `Credentials::new` (main.rs:76-82). -/
def Credentials.new (token : String) (c : Claims) : Credentials :=
  { access_token := token, credentials_id := c.sub, expiration_date := c.exp }

/-- Is `sep` a leading segment of `s`? If so, return the remainder. -/
def stripPre : List Char → List Char → Option (List Char)
  | [], s => some s
  | _ :: _, [] => none
  | c :: cs, d :: ds => if c = d then stripPre cs ds else none

/-- Fuel-driven splitter mirroring Rust `str::split(sep)` for nonempty
`sep`: the input is cut at each leftmost non-overlapping occurrence of
`sep`. The fuel never runs out when it starts at the input length. -/
def splitGo (sep : List Char) : Nat → List Char → List Char → List (List Char)
  | 0, acc, rest => [acc.reverse ++ rest]
  | _ + 1, acc, [] => [acc.reverse]
  | fuel + 1, acc, c :: rest =>
    match stripPre sep (c :: rest) with
    | some rest' => acc.reverse :: splitGo sep fuel [] rest'
    | none => splitGo sep fuel (c :: acc) rest

/-- Rust `s.split(sep).collect::<Vec<_>>()`. -/
def rustSplit (s sep : String) : List String :=
  (splitGo sep.toList s.toList.length [] s.toList).map List.asString

/-- Rust `str::trim`: drop whitespace from both ends. -/
def rustTrim (s : String) : String :=
  (((s.toList.dropWhile Char.isWhitespace).reverse.dropWhile
      Char.isWhitespace).reverse).asString

/-- Result of the bearer-token extractor: success, a 401 rejection, or a
Rust panic (an `unwrap` failure or an out-of-bounds index). -/
inductive AuthOutcome where
  | ok (c : Credentials)
  | unauthorized (msg : String)
  | panicked
deriving DecidableEq

/-- Model of `Credentials::from_request` (main.rs:121-134), parameterized by
the token decoder. The header value, when present, is split on the
substring `Bearer`; the source then indexes `_split[1]`, which goes out of
bounds (a panic) when the split produced fewer than two pieces. -/
def from_request (decode : String → Except TokenError Claims)
    (auth : Option String) : AuthOutcome :=
  match auth with
  | none => .unauthorized "blocked!"
  | some h =>
    match (rustSplit h "Bearer").get? 1 with
    | none => .panicked
    | some piece =>
      match decode (rustTrim piece) with
      | .ok msg => .ok (Credentials.new (rustTrim piece) msg)
      | .error _ => .unauthorized "invalid token"

/-- Error taxonomy of the code exchange. `ProviderRejected` carries the
status and body text of the `bail!` message; `Network` stands for a
reqwest transport or body-deserialization error. -/
inductive ExchangeError where
  | ProviderRejected (status : Nat) (body : String)
  | TokenInvalid
  | Network
deriving DecidableEq

/-- Abstraction of the identity provider's reply to the token-endpoint POST:
HTTP status, body text, and the `access_token` field when the body
deserializes as an `ExchangeResponse`. -/
structure ProviderResponse where
  status : Nat
  body : String
  accessToken : Option String
deriving DecidableEq

/-- reqwest `StatusCode::is_success`: a 2xx status. -/
def isSuccessStatus (s : Nat) : Bool := 200 ≤ s && s < 300

/-- Model of `Credentials::exchange_code` (main.rs:83-112), parameterized by
the token decoder and the provider's response. A non-2xx status fails
carrying the status and body text; a body without a usable `access_token`
is a deserialization failure; an access token that fails `decode_token`
fails as invalid; otherwise a `Credentials` is built from the token and its
decoded claims. -/
def exchange_code (decode : String → Except TokenError Claims)
    (resp : ProviderResponse) : Except ExchangeError Credentials :=
  if !isSuccessStatus resp.status then
    .error (.ProviderRejected resp.status resp.body)
  else
    match resp.accessToken with
    | none => .error .Network
    | some tok =>
      match decode tok with
      | .ok msg => .ok (Credentials.new tok msg)
      | .error _ => .error .TokenInvalid

/-- The `Account` DTO (main.rs:151-157). -/
structure Account where
  account_id : String
  account_type : String
  display_name : String
  currency : String
deriving DecidableEq

/-- The `Transaction` DTO (main.rs:158-165); the UTC timestamp is modelled
as epoch seconds, and the `f64` amount by the exact rational value it
denotes (every finite binary64 value is a rational). Arithmetic on amounts
appears in two forms below: idealized exact addition (`entryAdd`) and
correctly rounded binary64 addition (`fpAdd`). -/
structure Transaction where
  transaction_id : String
  amount : ℚ
  timestamp : Int
  description : String
  transaction_category : String
deriving DecidableEq

/-- UserCache: accounts -> transactions (main.rs:191). The `HashMap` is
modelled as an association list with HashMap insert/lookup semantics. -/
abbrev UserCache := List (String × List Transaction)

/-- Fetch failures: a non-2xx data-API reply with its status and body, or a
transport/deserialization error. -/
inductive FetchError where
  | Http (status : Nat) (body : String)
  | Network
deriving DecidableEq

/-- `HashMap::insert` on the association-list model: replace the value of an
existing key, otherwise append the new entry. -/
def ucInsert : UserCache → String → List Transaction → UserCache
  | [], k, v => [(k, v)]
  | (k', v') :: rest, k, v =>
    if k' = k then (k, v) :: rest else (k', v') :: ucInsert rest k v

/-- Drain of the `buffer_unordered` stream (main.rs:215-219): per-account
results are consumed in arrival order and inserted under their account id;
the first `Err` aborts the whole loop via `?`, discarding the partially
built map. -/
def collectArrivals : UserCache →
    List (Except FetchError (String × List Transaction)) →
    Except FetchError UserCache
  | acc, [] => .ok acc
  | _, .error e :: _ => .error e
  | acc, .ok kv :: rest => collectArrivals (ucInsert acc kv.1 kv.2) rest

/-- Model of `get_transactions` (main.rs:194-221): `accountsRes` is the
outcome of the accounts-listing GET, and `arrivals` are the per-account
fetch outcomes in stream arrival order (the scheduler's choice, not
necessarily account order). -/
def get_transactions (accountsRes : Except FetchError (List Account))
    (arrivals : List (Except FetchError (String × List Transaction))) :
    Except FetchError UserCache :=
  match accountsRes with
  | .error e => .error e
  | .ok _ => collectArrivals [] arrivals

/-- chrono `Duration::num_days`: the number of whole days, an i64 division
truncating toward zero, applied to a difference in seconds. -/
def numDays (secs : Int) : Int := Int.tdiv secs 86400

/-- The filter of `summarize_transactions`:
`(Utc::now() - t.timestamp).num_days() < 7`. -/
def includedTx (now : Int) (t : Transaction) : Bool :=
  numDays (now - t.timestamp) < 7

/-- `*res.entry(category).or_default() += amount` on the association-list
model of the result map, with the f64 accumulation idealized as exact
rational addition; `fpEntryAdd` is the rounding-faithful binary64
variant. -/
def entryAdd : List (String × ℚ) → String → ℚ → List (String × ℚ)
  | [], cat, a => [(cat, a)]
  | (k, v) :: rest, cat, a =>
    if k = cat then (k, v + a) :: rest else (k, v) :: entryAdd rest cat a

/-- One iteration of the inner loop of `summarize_transactions`. -/
def summStep (now : Int) (res : List (String × ℚ)) (t : Transaction) :
    List (String × ℚ) :=
  if includedTx now t then entryAdd res t.transaction_category t.amount else res

/-- Model of `summarize_transactions` (main.rs:223-235); the parameter `now`
stands for the `Utc::now()` read inside the function. -/
def summarize_transactions (now : Int) (cache : UserCache) :
    List (String × ℚ) :=
  cache.foldl (fun res acctrans => acctrans.2.foldl (summStep now) res) []

/-- Lookup in the summary map (the read a caller performs on the returned
`HashMap<String, f64>`). -/
def lookupAmt : List (String × ℚ) → String → Option ℚ
  | [], _ => none
  | (k, v) :: rest, cat => if k = cat then some v else lookupAmt rest cat

/-- Stage of IEEE-754 binary64 rounding: bring a positive rational into the
53-bit significand range [2^52, 2^53) by doubling or halving, counting in
`s` how many net halvings of the running value were applied (the original
value is `x * 2^(-s)` throughout). Fuel-driven; 4096 exceeds twice the
binary64 exponent range, so the fuel never runs out for a value in the
finite range. -/
def fpNormQ : Nat → ℚ → Int → ℚ × Int
  | 0, x, s => (x, s)
  | fuel + 1, x, s =>
    if x < 2 ^ 52 then fpNormQ fuel (2 * x) (s + 1)
    else if 2 ^ 53 ≤ x then fpNormQ fuel (x / 2) (s - 1)
    else (x, s)

/-- Round a rational to an integer, ties to even (the IEEE-754 default
rounding applied to a normalized significand). -/
def fpRTE (x : ℚ) : ℤ :=
  if x - ⌊x⌋ < 1 / 2 then ⌊x⌋
  else if (1 : ℚ) / 2 < x - ⌊x⌋ then ⌊x⌋ + 1
  else if ⌊x⌋ % 2 = 0 then ⌊x⌋ else ⌊x⌋ + 1

/-- Correctly round a positive rational to the nearest IEEE-754 binary64
value (round-to-nearest, ties-to-even): normalize into the significand
range, round to an integer significand, scale back. Faithful on the normal
finite range (overflow and the subnormal range are never reached by the
amounts considered here). -/
def fpRoundPos (x : ℚ) : ℚ :=
  (fpRTE (fpNormQ 4096 x 0).1 : ℚ) * (2 : ℚ) ^ (-(fpNormQ 4096 x 0).2)

/-- IEEE-754 binary64 rounding of a rational; the identity on every value
an `f64` can hold. -/
def fpRound (x : ℚ) : ℚ :=
  if x = 0 then 0 else if x < 0 then -fpRoundPos (-x) else fpRoundPos x

/-- IEEE-754 binary64 addition: the correctly rounded exact sum. This is
the `+` of the source's `f64` amounts; unlike exact rational addition it is
not associative. -/
def fpAdd (a b : ℚ) : ℚ := fpRound (a + b)

/-- `entryAdd` with the accumulation performed in binary64 arithmetic: the
rounding-faithful reading of `*res.entry(category).or_default() += amount`
on `f64` values (`or_default` inserts 0.0, then `+=` adds). -/
def fpEntryAdd : List (String × ℚ) → String → ℚ → List (String × ℚ)
  | [], cat, a => [(cat, fpAdd 0 a)]
  | (k, v) :: rest, cat, a =>
    if k = cat then (k, fpAdd v a) :: rest else (k, v) :: fpEntryAdd rest cat a

/-- One iteration of the inner summarize loop at binary64 precision. -/
def fpSummStep (now : Int) (res : List (String × ℚ)) (t : Transaction) :
    List (String × ℚ) :=
  if includedTx now t then fpEntryAdd res t.transaction_category t.amount
  else res

/-- `summarize_transactions` with the f64 accumulation modelled by correctly
rounded binary64 addition instead of exact rational addition. -/
def fpSummarize (now : Int) (cache : UserCache) : List (String × ℚ) :=
  cache.foldl (fun res acctrans => acctrans.2.foldl (fpSummStep now) res) []

/-- The binary64 double 0.1 * 2^56: scaling f64(0.1) by a power of two is
exact, so this integer amount reproduces the 0.1 + 0.2 + 0.3 rounding/tie
pattern exactly while keeping the arithmetic in integers. -/
def amtA : ℚ := 7205759403792794

/-- The binary64 double 0.2 * 2^56. -/
def amtB : ℚ := 14411518807585588

/-- The binary64 double 0.3 * 2^56. -/
def amtC : ℚ := 21617278211378380

/-- Three in-window transactions of one category over two accounts. -/
def fpCache1 : UserCache :=
  [("A1", [⟨"t1", amtA, 0, "", "food"⟩, ⟨"t2", amtB, 0, "", "food"⟩]),
   ("A2", [⟨"t3", amtC, 0, "", "food"⟩])]

/-- The same three transactions with the account order permuted and the two
transactions of account A1 exchanged. -/
def fpCache2 : UserCache :=
  [("A2", [⟨"t3", amtC, 0, "", "food"⟩]),
   ("A1", [⟨"t2", amtB, 0, "", "food"⟩, ⟨"t1", amtA, 0, "", "food"⟩])]

/-- AppCache: credential -> UserCache (main.rs:192). The process-wide
`HashMap` behind the `Mutex` is modelled extensionally as a total function
into `Option`. -/
abbrev AppCache := String → Option UserCache

/-- `c.get(&creds.credentials_id)` on the AppCache. -/
def cacheGet (m : AppCache) (credId : String) : Option UserCache := m credId

/-- `*cache.entry(credentials_id).or_default() = data`: the net effect is an
unconditional insert/overwrite for that key. -/
def cacheFill (m : AppCache) (credId : String) (d : UserCache) : AppCache :=
  fun k => if k = credId then some d else m k

/-- Body of a `/transactions` reply. -/
inductive DataResult where
  | ok (body : UserCache)
  | unauthorized (msg : String)
deriving DecidableEq

/-- Model of the `/transactions` handler (main.rs:263-280): read the cache
under the lock; on a hit answer from the entry; on a miss consult the
outcome `fetch` of `get_transactions` and either fill-and-answer or surface
the error as a 401, leaving the cache untouched. -/
def transactionsRoute (m : AppCache) (credId : String)
    (fetch : Except FetchError UserCache) : DataResult × AppCache :=
  match cacheGet m credId with
  | some d => (.ok d, m)
  | none =>
    match fetch with
    | .ok d => (.ok d, cacheFill m credId d)
    | .error _ => (.unauthorized "Accounts error", m)

/-- Body of a `/summary` reply. -/
inductive SummaryResult where
  | ok (body : List (String × ℚ))
  | unauthorized (msg : String)
deriving DecidableEq

/-- Model of the `/summary` handler (main.rs:282-299): identical shape to
`transactionsRoute`, except that the served `UserCache` is summarized. -/
def summaryRoute (now : Int) (m : AppCache) (credId : String)
    (fetch : Except FetchError UserCache) : SummaryResult × AppCache :=
  match cacheGet m credId with
  | some d => (.ok (summarize_transactions now d), m)
  | none =>
    match fetch with
    | .ok d => (.ok (summarize_transactions now d), cacheFill m credId d)
    | .error _ => (.unauthorized "Accounts error", m)

/-- The transactions of every account of a cache, flattened in iteration
order. -/
def allTx (cache : UserCache) : List Transaction :=
  (cache.map Prod.snd).flatten

/-- Amounts of the included (in-window) transactions of one category, in
iteration order. -/
def catAmounts (now : Int) (cat : String) (ts : List Transaction) : List ℚ :=
  (ts.filter fun t => includedTx now t && decide (t.transaction_category = cat)).map
    Transaction.amount

/-- Equality of caches up to account order and per-account transaction
order: the two account lists agree as multisets of (account id, multiset of
transactions) pairs. -/
def permCache (c1 c2 : UserCache) : Prop :=
  ((c1.map fun p => (p.1, (p.2 : Multiset Transaction))) :
      Multiset (String × Multiset Transaction)) =
    ((c2.map fun p => (p.1, (p.2 : Multiset Transaction))) :
      Multiset (String × Multiset Transaction))

/-- Decoder stub used by the exchange witness: one valid token. -/
def decodeStub (t : String) : Except TokenError Claims :=
  if t = "goodtoken" then .ok ⟨"u1", 99⟩ else .error .Malformed

/-- Parser stub used by the expiry witness: one well-formed token with
`exp = 10`. -/
def parseStub (t : String) : ParseOutcome :=
  if t = "expiredtoken" then .parsed ⟨"u1", 10⟩ else .malformed

lemma lookupAmt_entryAdd (res : List (String × ℚ)) (k : String) (a : ℚ)
    (cat : String) :
    lookupAmt (entryAdd res k a) cat =
      if k = cat then some ((lookupAmt res cat).getD 0 + a)
      else lookupAmt res cat := by
  induction res with
  | nil =>
    by_cases h : k = cat <;> simp [entryAdd, lookupAmt, h]
  | cons p rest ih =>
    obtain ⟨k', v⟩ := p
    by_cases h1 : k' = k
    · subst h1
      by_cases h2 : k' = cat <;> simp [entryAdd, lookupAmt, h2]
    · by_cases h2 : k' = cat
      · have hk : ¬k = cat := fun hk => h1 (h2.trans hk.symm)
        have hck : ¬cat = k := fun hh => hk hh.symm
        simp [entryAdd, lookupAmt, h1, h2, hk, hck]
      · simp [entryAdd, lookupAmt, h1, h2, ih]

lemma lookupAmt_foldl_summStep (now : Int) (ts : List Transaction)
    (res : List (String × ℚ)) (cat : String) :
    lookupAmt (ts.foldl (summStep now) res) cat =
      if catAmounts now cat ts = [] then lookupAmt res cat
      else some ((lookupAmt res cat).getD 0 + (catAmounts now cat ts).sum) := by
  induction ts generalizing res with
  | nil => simp [catAmounts]
  | cons t ts ih =>
    by_cases hinc : includedTx now t
    · by_cases hcat : t.transaction_category = cat
      · have hAmts : catAmounts now cat (t :: ts) =
            t.amount :: catAmounts now cat ts := by
          simp [catAmounts, hinc, hcat]
        have hstep : summStep now res t = entryAdd res cat t.amount := by
          simp [summStep, hinc, hcat]
        rw [List.foldl_cons, hstep, ih, hAmts, lookupAmt_entryAdd]
        by_cases hnil : catAmounts now cat ts = [] <;>
          simp [hnil, add_assoc]
      · have hAmts : catAmounts now cat (t :: ts) = catAmounts now cat ts := by
          simp [catAmounts, hinc, hcat]
        have hstep : lookupAmt (summStep now res t) cat = lookupAmt res cat := by
          simp [summStep, hinc, lookupAmt_entryAdd, hcat]
        rw [List.foldl_cons, ih, hAmts, hstep]
    · have hAmts : catAmounts now cat (t :: ts) = catAmounts now cat ts := by
        simp [catAmounts, hinc]
      have hstep : summStep now res t = res := by
        simp [summStep, hinc]
      rw [List.foldl_cons, hstep, ih, hAmts]

lemma summarize_eq_foldl (now : Int) (cache : UserCache)
    (res : List (String × ℚ)) :
    cache.foldl (fun r acctrans => acctrans.2.foldl (summStep now) r) res =
      (allTx cache).foldl (summStep now) res := by
  induction cache generalizing res with
  | nil => rfl
  | cons p cs ih =>
    simp only [allTx, List.map_cons, List.flatten_cons, List.foldl_append,
      List.foldl_cons]
    rw [ih]
    rfl

lemma lookupAmt_summarize (now : Int) (cache : UserCache) (cat : String) :
    lookupAmt (summarize_transactions now cache) cat =
      if catAmounts now cat (allTx cache) = [] then none
      else some (catAmounts now cat (allTx cache)).sum := by
  unfold summarize_transactions
  rw [summarize_eq_foldl, lookupAmt_foldl_summStep]
  simp [lookupAmt]

lemma foldl_summStep_filter (now : Int) (ts : List Transaction)
    (res : List (String × ℚ)) :
    ts.foldl (summStep now) res =
      (ts.filter (includedTx now)).foldl (summStep now) res := by
  induction ts generalizing res with
  | nil => rfl
  | cons t ts ih =>
    by_cases hinc : includedTx now t
    · rw [List.foldl_cons, ih]
      simp [hinc]
    · rw [List.foldl_cons, ih]
      simp [hinc, summStep]

lemma allTx_map_filter (P : Transaction → Bool) (cache : UserCache) :
    allTx (cache.map fun p => (p.1, p.2.filter P)) = (allTx cache).filter P := by
  induction cache with
  | nil => rfl
  | cons p cs ih =>
    simp only [allTx, List.map_cons, List.flatten_cons, List.filter_append] at *
    rw [ih]

lemma allTx_coe_sum (c : UserCache) :
    ((allTx c : List Transaction) : Multiset Transaction) =
      ((c.map fun p => ((p.2 : List Transaction) : Multiset Transaction))).sum := by
  induction c with
  | nil => rfl
  | cons p cs ih =>
    simp only [allTx, List.map_cons, List.flatten_cons, List.sum_cons] at *
    rw [← Multiset.coe_add, ih]

lemma permCache_allTx_perm {c1 c2 : UserCache} (h : permCache c1 c2) :
    (allTx c1).Perm (allTx c2) := by
  rw [← Multiset.coe_eq_coe, allTx_coe_sum, allTx_coe_sum]
  have h2 : (c1.map fun p => (p.1, (p.2 : Multiset Transaction))).Perm
      (c2.map fun p => (p.1, (p.2 : Multiset Transaction))) :=
    Multiset.coe_eq_coe.mp h
  have h3 := h2.map fun q : String × Multiset Transaction => q.2
  simp only [List.map_map, Function.comp] at h3
  exact List.Perm.sum_eq h3

lemma permCache_catAmounts {c1 c2 : UserCache} (h : permCache c1 c2)
    (now : Int) (cat : String) :
    (catAmounts now cat (allTx c1)).Perm (catAmounts now cat (allTx c2)) :=
  ((permCache_allTx_perm h).filter _).map _

lemma fpNormQ_hlv (fuel : Nat) (x : ℚ) (s : Int) (h1 : ¬x < 2 ^ 52)
    (h2 : 2 ^ 53 ≤ x) :
    fpNormQ (fuel + 1) x s = fpNormQ fuel (x / 2) (s - 1) := by
  simp [fpNormQ, h1, h2]

lemma fpNormQ_done (fuel : Nat) (x : ℚ) (s : Int) (h1 : ¬x < 2 ^ 52)
    (h2 : ¬2 ^ 53 ≤ x) :
    fpNormQ (fuel + 1) x s = (x, s) := by
  simp [fpNormQ, h1, h2]

lemma fpAdd_zero_A : fpAdd 0 amtA = amtA := by
  have hs : (0 : ℚ) + amtA = 7205759403792794 := by norm_num [amtA]
  have hn : fpNormQ 4096 (7205759403792794 : ℚ) 0 = (7205759403792794, 0) := by
    rw [fpNormQ_done 4095 7205759403792794 0 (by norm_num) (by norm_num)]
  rw [fpAdd, hs, fpRound, if_neg (by norm_num), if_neg (by norm_num),
    fpRoundPos, hn]
  norm_num [fpRTE, amtA]

lemma fpAdd_A_B : fpAdd amtA amtB = 21617278211378384 := by
  have hs : amtA + amtB = (21617278211378382 : ℚ) := by norm_num [amtA, amtB]
  have hn : fpNormQ 4096 (21617278211378382 : ℚ) 0 =
      (10808639105689191 / 2, -2) := by
    rw [fpNormQ_hlv 4095 21617278211378382 0 (by norm_num) (by norm_num)]
    norm_num
    rw [fpNormQ_hlv 4094 10808639105689191 (-1) (by norm_num) (by norm_num)]
    norm_num
    rw [fpNormQ_done 4093 (10808639105689191 / 2) (-2) (by norm_num)
      (by norm_num)]
  rw [fpAdd, hs, fpRound, if_neg (by norm_num), if_neg (by norm_num),
    fpRoundPos, hn]
  norm_num [fpRTE]

lemma fpAdd_AB_C : fpAdd 21617278211378384 amtC = 43234556422756768 := by
  have hs : (21617278211378384 : ℚ) + amtC = 43234556422756764 := by
    norm_num [amtC]
  have hn : fpNormQ 4096 (43234556422756764 : ℚ) 0 =
      (10808639105689191 / 2, -3) := by
    rw [fpNormQ_hlv 4095 43234556422756764 0 (by norm_num) (by norm_num)]
    norm_num
    rw [fpNormQ_hlv 4094 21617278211378382 (-1) (by norm_num) (by norm_num)]
    norm_num
    rw [fpNormQ_hlv 4093 10808639105689191 (-2) (by norm_num) (by norm_num)]
    norm_num
    rw [fpNormQ_done 4092 (10808639105689191 / 2) (-3) (by norm_num)
      (by norm_num)]
  rw [fpAdd, hs, fpRound, if_neg (by norm_num), if_neg (by norm_num),
    fpRoundPos, hn]
  norm_num [fpRTE]

lemma fpAdd_zero_C : fpAdd 0 amtC = amtC := by
  have hs : (0 : ℚ) + amtC = 21617278211378380 := by norm_num [amtC]
  have hn : fpNormQ 4096 (21617278211378380 : ℚ) 0 =
      (5404319552844595, -2) := by
    rw [fpNormQ_hlv 4095 21617278211378380 0 (by norm_num) (by norm_num)]
    norm_num
    rw [fpNormQ_hlv 4094 10808639105689190 (-1) (by norm_num) (by norm_num)]
    norm_num
    rw [fpNormQ_done 4093 5404319552844595 (-2) (by norm_num) (by norm_num)]
  rw [fpAdd, hs, fpRound, if_neg (by norm_num), if_neg (by norm_num),
    fpRoundPos, hn]
  norm_num [fpRTE, amtC]

lemma fpAdd_C_B : fpAdd amtC amtB = 36028797018963968 := by
  have hs : amtC + amtB = (36028797018963968 : ℚ) := by norm_num [amtB, amtC]
  have hn : fpNormQ 4096 (36028797018963968 : ℚ) 0 =
      (4503599627370496, -3) := by
    rw [fpNormQ_hlv 4095 36028797018963968 0 (by norm_num) (by norm_num)]
    norm_num
    rw [fpNormQ_hlv 4094 18014398509481984 (-1) (by norm_num) (by norm_num)]
    norm_num
    rw [fpNormQ_hlv 4093 9007199254740992 (-2) (by norm_num) (by norm_num)]
    norm_num
    rw [fpNormQ_done 4092 4503599627370496 (-3) (by norm_num) (by norm_num)]
  rw [fpAdd, hs, fpRound, if_neg (by norm_num), if_neg (by norm_num),
    fpRoundPos, hn]
  norm_num [fpRTE]

lemma fpAdd_CB_A : fpAdd 36028797018963968 amtA = 43234556422756760 := by
  have hs : (36028797018963968 : ℚ) + amtA = 43234556422756762 := by
    norm_num [amtA]
  have hn : fpNormQ 4096 (43234556422756762 : ℚ) 0 =
      (21617278211378381 / 4, -3) := by
    rw [fpNormQ_hlv 4095 43234556422756762 0 (by norm_num) (by norm_num)]
    norm_num
    rw [fpNormQ_hlv 4094 21617278211378381 (-1) (by norm_num) (by norm_num)]
    norm_num
    rw [fpNormQ_hlv 4093 (21617278211378381 / 2) (-2) (by norm_num)
      (by norm_num)]
    norm_num
    rw [fpNormQ_done 4092 (21617278211378381 / 4) (-3) (by norm_num)
      (by norm_num)]
  rw [fpAdd, hs, fpRound, if_neg (by norm_num), if_neg (by norm_num),
    fpRoundPos, hn]
  norm_num [fpRTE]

lemma lookupAmt_fpEntryAdd_isSome (res : List (String × ℚ)) (k : String)
    (a : ℚ) (cat : String) :
    (lookupAmt (fpEntryAdd res k a) cat).isSome =
      (decide (k = cat) || (lookupAmt res cat).isSome) := by
  induction res with
  | nil => by_cases h : k = cat <;> simp [fpEntryAdd, lookupAmt, h]
  | cons p rest ih =>
    obtain ⟨k', v⟩ := p
    by_cases h1 : k' = k
    · subst h1
      by_cases h2 : k' = cat <;> simp [fpEntryAdd, lookupAmt, h2]
    · by_cases h2 : k' = cat
      · have hck : ¬cat = k := fun hh => h1 (h2.trans hh)
        simp [fpEntryAdd, lookupAmt, h2, hck]
      · simp [fpEntryAdd, lookupAmt, h1, h2, ih]

lemma lookupAmt_fp_foldl_isSome (now : Int) (ts : List Transaction)
    (res : List (String × ℚ)) (cat : String) :
    (lookupAmt (ts.foldl (fpSummStep now) res) cat).isSome =
      ((ts.any fun t =>
          includedTx now t && decide (t.transaction_category = cat)) ||
        (lookupAmt res cat).isSome) := by
  induction ts generalizing res with
  | nil => simp
  | cons t ts ih =>
    rw [List.foldl_cons, ih, List.any_cons]
    by_cases hinc : includedTx now t
    · by_cases hcat : t.transaction_category = cat <;>
        simp [fpSummStep, hinc, hcat, lookupAmt_fpEntryAdd_isSome,
          Bool.or_assoc]
    · simp [fpSummStep, hinc]

lemma fpSummarize_eq_foldl (now : Int) (cache : UserCache)
    (res : List (String × ℚ)) :
    cache.foldl (fun r acctrans => acctrans.2.foldl (fpSummStep now) r) res =
      (allTx cache).foldl (fpSummStep now) res := by
  induction cache generalizing res with
  | nil => rfl
  | cons p cs ih =>
    simp only [allTx, List.map_cons, List.flatten_cons, List.foldl_append,
      List.foldl_cons]
    rw [ih]
    rfl

lemma fpSummarize_keys (now : Int) (cache : UserCache) (cat : String) :
    (lookupAmt (fpSummarize now cache) cat).isSome =
      ((allTx cache).any fun t =>
        includedTx now t && decide (t.transaction_category = cat)) := by
  unfold fpSummarize
  rw [fpSummarize_eq_foldl, lookupAmt_fp_foldl_isSome]
  simp [lookupAmt]

lemma perm_any_eq {l1 l2 : List Transaction} (h : l1.Perm l2)
    (f : Transaction → Bool) : l1.any f = l2.any f := by
  cases hb : l2.any f with
  | true =>
    rw [List.any_eq_true] at hb ⊢
    obtain ⟨x, hx, hfx⟩ := hb
    exact ⟨x, h.mem_iff.mpr hx, hfx⟩
  | false =>
    rw [List.any_eq_false] at hb ⊢
    intro x hx
    exact hb x (h.mem_iff.mp hx)

lemma summarize_singleton (now : Int) (aid : String) (t : Transaction) :
    summarize_transactions now [(aid, [t])] =
      if numDays (now - t.timestamp) < 7 then
        [(t.transaction_category, t.amount)]
      else [] := by
  by_cases h : numDays (now - t.timestamp) < 7 <;>
    simp [summarize_transactions, summStep, includedTx, entryAdd, h]

/-- C1: a missing Authorization header is rejected before any route logic
(the `AuthError::Missing`-style 401, body "blocked!"); but the header value
"u1token" with no Bearer scheme does not fail with `AuthError::Invalid` —
splitting it on "Bearer" yields a single piece and the source indexes
`_split[1]` out of bounds, a panic, for every possible token decoder. -/
theorem from_request_missing_and_u1token
    (decode : String → Except TokenError Claims) :
    from_request decode none = .unauthorized "blocked!" ∧
    from_request decode (some "u1token") = .panicked := by
  refine ⟨rfl, ?_⟩
  have hsplit : rustSplit "u1token" "Bearer" = ["u1token"] := by decide
  simp [from_request, hsplit]

/-- C2: when any per-account arrival is an error (here: the first failing
arrival, everything before it having succeeded), `get_transactions` returns
exactly that error and no partial `UserCache`, and the `/transactions`
handler leaves the whole cache unchanged — in particular an absent entry
stays absent. -/
theorem fetch_failure_no_partial_cache
    (accs : List Account)
    (pre post : List (Except FetchError (String × List Transaction)))
    (e : FetchError) (m : AppCache) (credId : String)
    (hpre : ∀ r ∈ pre, ∃ kv, r = .ok kv) :
    get_transactions (.ok accs) (pre ++ .error e :: post) = .error e ∧
    (transactionsRoute m credId (.error e)).2 = m ∧
    (cacheGet m credId = none →
      cacheGet (transactionsRoute m credId (.error e)).2 credId = none) := by
  have hroute : (transactionsRoute m credId (.error e)).2 = m := by
    cases hmc : cacheGet m credId <;> simp [transactionsRoute, hmc]
  refine ⟨?_, hroute, fun hnone => by rw [hroute]; exact hnone⟩
  show collectArrivals [] (pre ++ .error e :: post) = .error e
  have key : ∀ (pre' : List (Except FetchError (String × List Transaction)))
      (acc : UserCache), (∀ r ∈ pre', ∃ kv, r = .ok kv) →
      collectArrivals acc (pre' ++ .error e :: post) = .error e := by
    intro pre'
    induction pre' with
    | nil => intro acc _; rfl
    | cons r rest ih =>
      intro acc hp
      obtain ⟨kv, rfl⟩ := hp r (List.mem_cons_self _ _)
      exact ih _ fun r' hr' => hp r' (List.mem_cons_of_mem _ hr')
  exact key pre [] hpre

/-- Witness for C2 at a concrete failing arrival and an empty cache. -/
theorem fetch_failure_no_partial_cache_witness :
    get_transactions (.ok []) [.error .Network] = .error .Network ∧
    (transactionsRoute (fun _ => none) "u1" (.error .Network)).2 =
      (fun _ => none) ∧
    (cacheGet (fun _ => none) "u1" = none →
      cacheGet (transactionsRoute (fun _ => none) "u1" (.error .Network)).2
        "u1" = none) :=
  fetch_failure_no_partial_cache [] [] [] .Network (fun _ => none) "u1"
    (fun r hr => absurd hr (List.not_mem_nil r))

/-- C3: the summary window is the strict 7-whole-day boundary. Discarding
every transaction outside the window leaves the summary unchanged; a
singleton cache contributes exactly when `(now - timestamp).num_days() < 7`
with the truncating division; a transaction exactly 7 days old is excluded;
one at 7 days minus 1 second is included. -/
theorem summarize_seven_day_window :
    (∀ now cache, summarize_transactions now cache =
      summarize_transactions now
        (cache.map fun p => (p.1, p.2.filter (includedTx now)))) ∧
    (∀ now aid t, summarize_transactions now [(aid, [t])] =
      if numDays (now - t.timestamp) < 7 then
        [(t.transaction_category, t.amount)]
      else []) ∧
    (∀ now aid t, t.timestamp = now - 7 * 86400 →
      summarize_transactions now [(aid, [t])] = []) ∧
    (∀ now aid t, t.timestamp = now - 7 * 86400 + 1 →
      summarize_transactions now [(aid, [t])] =
        [(t.transaction_category, t.amount)]) := by
  refine ⟨?_, summarize_singleton, ?_, ?_⟩
  · intro now cache
    unfold summarize_transactions
    rw [summarize_eq_foldl, summarize_eq_foldl, allTx_map_filter,
      foldl_summStep_filter]
  · intro now aid t ht
    rw [summarize_singleton, ht]
    have hdiff : now - (now - 7 * 86400) = 604800 := by ring
    rw [hdiff, if_neg (by decide)]
  · intro now aid t ht
    rw [summarize_singleton, ht]
    have hdiff : now - (now - 7 * 86400 + 1) = 604799 := by ring
    rw [hdiff, if_pos (by decide)]

/-- Witness for C3 at the two boundary instants (now = 0). -/
theorem summarize_seven_day_window_witness :
    summarize_transactions 0 [("a", [⟨"t1", 5, -604800, "", "food"⟩])] = [] ∧
    summarize_transactions 0 [("a", [⟨"t2", 5, -604799, "", "food"⟩])] =
      [("food", (5 : ℚ))] :=
  ⟨summarize_seven_day_window.2.2.1 0 "a" ⟨"t1", 5, -604800, "", "food"⟩
      (by decide),
   summarize_seven_day_window.2.2.2 0 "a" ⟨"t2", 5, -604799, "", "food"⟩
      (by decide)⟩

/-- C4: reading any category off the summary gives the total amount of the
included transactions of that category across all accounts, and no entry at
all when the category has no included transaction (no zero-filling); the
two-account food scenario sums 10 and 5 to a single entry of 15. -/
theorem summarize_totals_no_zero_fill :
    (∀ now cache cat,
      lookupAmt (summarize_transactions now cache) cat =
        if catAmounts now cat (allTx cache) = [] then none
        else some (catAmounts now cat (allTx cache)).sum) ∧
    (∀ now : Int,
      summarize_transactions now
        [("A1", [⟨"t1", 10, now, "", "food"⟩]),
         ("A2", [⟨"t2", 5, now, "", "food"⟩])] = [("food", 15)]) := by
  refine ⟨lookupAmt_summarize, ?_⟩
  intro now
  simp [summarize_transactions, summStep, includedTx, numDays, entryAdd]
  norm_num

/-- C5, counterexample: the claim fails on the program's f64 arithmetic.
The two caches hold the same three transactions, with the account iteration
order permuted and the order inside account A1 exchanged; accumulating at
binary64 precision gives food totals that differ by one rounding step
(the 0.1 + 0.2 + 0.3 tie pattern, scaled by 2^56 so every value is an
integer), so the output mappings are not the same. -/
theorem fp_summarize_order_dependent :
    permCache fpCache1 fpCache2 ∧
    lookupAmt (fpSummarize 0 fpCache1) "food" ≠
      lookupAmt (fpSummarize 0 fpCache2) "food" := by
  constructor
  · unfold permCache fpCache1 fpCache2
    simp only [List.map_cons, List.map_nil]
    have hin : (([⟨"t1", amtA, 0, "", "food"⟩, ⟨"t2", amtB, 0, "", "food"⟩] :
          List Transaction) : Multiset Transaction) =
        (([⟨"t2", amtB, 0, "", "food"⟩, ⟨"t1", amtA, 0, "", "food"⟩] :
          List Transaction) : Multiset Transaction) :=
      Multiset.coe_eq_coe.mpr (List.Perm.swap _ _ _)
    rw [hin]
    exact Multiset.coe_eq_coe.mpr (List.Perm.swap _ _ _)
  · have hc1 : fpSummarize 0 fpCache1 =
        [("food", fpAdd (fpAdd (fpAdd 0 amtA) amtB) amtC)] := by
      simp [fpSummarize, fpSummStep, fpEntryAdd, includedTx, numDays,
        fpCache1, Int.zero_tdiv]
    have hc2 : fpSummarize 0 fpCache2 =
        [("food", fpAdd (fpAdd (fpAdd 0 amtC) amtB) amtA)] := by
      simp [fpSummarize, fpSummStep, fpEntryAdd, includedTx, numDays,
        fpCache2, Int.zero_tdiv]
    rw [hc1, hc2, fpAdd_zero_A, fpAdd_A_B, fpAdd_AB_C, fpAdd_zero_C,
      fpAdd_C_B, fpAdd_CB_A]
    simp only [lookupAmt, if_pos rfl, ne_eq, Option.some.injEq]
    norm_num

/-- C5 (amended): permuting the account iteration order, or the transaction
order within any account, yields the same summary mapping when the f64
accumulation is idealized as exact rational addition, and — even at real
binary64 precision — the same set of categories in the output. The binary64
totals themselves can shift by a rounding step under permutation (see the
counterexample), so exact equality of the mappings holds only for the
idealization; rerunning the pure function on unchanged inputs trivially
repeats the same output. -/
theorem summarize_exact_order_independent :
    (∀ now c1 c2, permCache c1 c2 → ∀ cat,
      lookupAmt (summarize_transactions now c1) cat =
        lookupAmt (summarize_transactions now c2) cat) ∧
    (∀ now c1 c2, permCache c1 c2 → ∀ cat,
      (lookupAmt (fpSummarize now c1) cat).isSome =
        (lookupAmt (fpSummarize now c2) cat).isSome) := by
  constructor
  · intro now c1 c2 h cat
    have hperm := permCache_catAmounts h now cat
    have hiff : (catAmounts now cat (allTx c1) = []) ↔
        (catAmounts now cat (allTx c2) = []) := by
      rw [← List.length_eq_zero, ← List.length_eq_zero, hperm.length_eq]
    rw [lookupAmt_summarize, lookupAmt_summarize]
    by_cases hnil : catAmounts now cat (allTx c1) = []
    · rw [if_pos hnil, if_pos (hiff.mp hnil)]
    · rw [if_neg hnil, if_neg (fun hh => hnil (hiff.mpr hh)),
        List.Perm.sum_eq hperm]
  · intro now c1 c2 h cat
    rw [fpSummarize_keys, fpSummarize_keys]
    exact perm_any_eq (permCache_allTx_perm h) _

/-- Witness for C5 (amended): swapping two accounts changes neither the
food total under exact accumulation nor the presence of the food key under
binary64 accumulation. -/
theorem summarize_exact_order_independent_witness :
    (lookupAmt (summarize_transactions 0
      [("A1", [⟨"t1", 10, 0, "", "food"⟩]),
       ("A2", [⟨"t2", 5, 0, "", "food"⟩])]) "food" =
    lookupAmt (summarize_transactions 0
      [("A2", [⟨"t2", 5, 0, "", "food"⟩]),
       ("A1", [⟨"t1", 10, 0, "", "food"⟩])]) "food") ∧
    ((lookupAmt (fpSummarize 0
      [("A1", [⟨"t1", 10, 0, "", "food"⟩]),
       ("A2", [⟨"t2", 5, 0, "", "food"⟩])]) "food").isSome =
    (lookupAmt (fpSummarize 0
      [("A2", [⟨"t2", 5, 0, "", "food"⟩]),
       ("A1", [⟨"t1", 10, 0, "", "food"⟩])]) "food").isSome) := by
  have hp : permCache
      [("A1", [⟨"t1", 10, 0, "", "food"⟩]),
       ("A2", [⟨"t2", 5, 0, "", "food"⟩])]
      [("A2", [⟨"t2", 5, 0, "", "food"⟩]),
       ("A1", [⟨"t1", 10, 0, "", "food"⟩])] := by
    unfold permCache
    simp only [List.map_cons, List.map_nil]
    exact Multiset.coe_eq_coe.mpr (List.Perm.swap _ _ _)
  exact ⟨summarize_exact_order_independent.1 0 _ _ hp "food",
    summarize_exact_order_independent.2 0 _ _ hp "food"⟩

/-- C6: populating a previously-uncached identity through the handler makes
the subsequent `get` of that identity return exactly the stored
`UserCache`, and `cacheFill` overwrites whatever entry existed before,
unconditionally. -/
theorem cache_fill_roundtrip :
    (∀ (m : AppCache) credId d, cacheGet m credId = none →
      cacheGet (transactionsRoute m credId (.ok d)).2 credId = some d ∧
      (transactionsRoute m credId (.ok d)).1 = .ok d) ∧
    (∀ (m : AppCache) credId d,
      cacheGet (cacheFill m credId d) credId = some d) := by
  constructor
  · intro m credId d h
    have hfill : cacheGet (cacheFill m credId d) credId = some d := by
      simp [cacheGet, cacheFill]
    simp [transactionsRoute, h, hfill]
  · intro m credId d
    simp [cacheGet, cacheFill]

/-- Witness for C6: filling an empty cache for "u1" and reading it back. -/
theorem cache_fill_roundtrip_witness :
    cacheGet (transactionsRoute (fun _ => none) "u1" (.ok [])).2 "u1" =
      some [] ∧
    (transactionsRoute (fun _ => none) "u1" (.ok [])).1 = .ok [] :=
  cache_fill_roundtrip.1 (fun _ => none) "u1" [] rfl

/-- C7: once an entry exists for a credential id, both `/transactions` and
`/summary` serve it from the cache — the result is the same for every
possible fetch outcome, so no outbound call can influence it — and the
cache comes back unchanged. -/
theorem cache_hit_serves_from_cache (m : AppCache) (credId : String)
    (d : UserCache) (now : Int) (f1 f2 : Except FetchError UserCache)
    (h : cacheGet m credId = some d) :
    transactionsRoute m credId f1 = (.ok d, m) ∧
    summaryRoute now m credId f2 = (.ok (summarize_transactions now d), m) := by
  constructor <;> simp [transactionsRoute, summaryRoute, h]

/-- Witness for C7: a cache holding "u1" answers both routes from the entry
even when the would-be fetch is a failure. -/
theorem cache_hit_serves_from_cache_witness :
    transactionsRoute (cacheFill (fun _ => none) "u1" []) "u1"
        (.error .Network) =
      (.ok [], cacheFill (fun _ => none) "u1" []) ∧
    summaryRoute 0 (cacheFill (fun _ => none) "u1" []) "u1"
        (.error .Network) =
      (.ok [], cacheFill (fun _ => none) "u1" []) :=
  cache_hit_serves_from_cache _ "u1" [] 0 _ _ (by simp [cacheGet, cacheFill])

/-- C8: the exchange fails with `ProviderRejected` carrying the provider's
status and body on any non-2xx reply; on a 2xx reply whose access token
fails decoding it fails with `TokenInvalid`; and on full success it returns
the `Credentials` built from the token and its decoded claims. -/
theorem exchange_code_error_paths (decode : String → Except TokenError Claims)
    (resp : ProviderResponse) :
    (isSuccessStatus resp.status = false →
      exchange_code decode resp =
        .error (.ProviderRejected resp.status resp.body)) ∧
    (∀ tok e, isSuccessStatus resp.status = true →
      resp.accessToken = some tok → decode tok = .error e →
      exchange_code decode resp = .error .TokenInvalid) ∧
    (∀ tok c, isSuccessStatus resp.status = true →
      resp.accessToken = some tok → decode tok = .ok c →
      exchange_code decode resp = .ok (Credentials.new tok c)) := by
  refine ⟨?_, ?_, ?_⟩
  · intro h
    simp [exchange_code, h]
  · intro tok e hs ha hd
    simp [exchange_code, hs, ha, hd]
  · intro tok c hs ha hd
    simp [exchange_code, hs, ha, hd]

/-- Witness for C8: a 400 reply, a 200 reply with an undecodable token, and
a 200 reply with a good token. -/
theorem exchange_code_error_paths_witness :
    exchange_code decodeStub ⟨400, "bad code", none⟩ =
      .error (.ProviderRejected 400 "bad code") ∧
    exchange_code decodeStub ⟨200, "", some "weird"⟩ = .error .TokenInvalid ∧
    exchange_code decodeStub ⟨200, "", some "goodtoken"⟩ =
      .ok (Credentials.new "goodtoken" ⟨"u1", 99⟩) :=
  ⟨(exchange_code_error_paths decodeStub _).1 (by decide),
   (exchange_code_error_paths decodeStub _).2.1 "weird" .Malformed (by decide)
     rfl (by simp [decodeStub]),
   (exchange_code_error_paths decodeStub _).2.2 "goodtoken" ⟨"u1", 99⟩
     (by decide) rfl (by simp [decodeStub])⟩

/-- C10: under the default jsonwebtoken validation modelled in
`decode_token`, a structurally well-formed token whose `exp` lies before
`now` is rejected, and a request carrying it as a bearer token is turned
away with the 401 "invalid token" rejection. -/
theorem expired_token_rejected (parse : String → ParseOutcome) (now : Nat)
    (t : String) (c : Claims) (hp : parse t = .parsed c)
    (hexp : c.exp < now) :
    decode_token parse now t = .error .Expired ∧
    (∀ hdr piece, rustSplit hdr "Bearer" = ["", piece] → rustTrim piece = t →
      from_request (decode_token parse now) (some hdr) =
        .unauthorized "invalid token") := by
  have hd : decode_token parse now t = .error .Expired := by
    simp [decode_token, hp, hexp]
  refine ⟨hd, ?_⟩
  intro hdr piece hs ht
  simp [from_request, hs, ht, hd]

/-- Witness for C10 at `now = 100` with an `exp = 10` token. -/
theorem expired_token_rejected_witness :
    decode_token parseStub 100 "expiredtoken" = .error .Expired ∧
    from_request (decode_token parseStub 100) (some "Bearer expiredtoken") =
      .unauthorized "invalid token" := by
  have h := expired_token_rejected parseStub 100 "expiredtoken" ⟨"u1", 10⟩
    (by simp [parseStub]) (by decide)
  exact ⟨h.1, h.2 "Bearer expiredtoken" " expiredtoken" (by decide) (by decide)⟩

end Datademo
